import Mathlib

/-!
Shallow embedding of the record-reconciliation and foreign-key-remapping
core of the workforce-scripts repository
(`arcgis_api_for_python/copy_project.py` and
`arcgis_api_for_python/copy_workers.py`).

Attribute dictionaries are modelled as association lists with Python
`dict` semantics (lookup of a missing key is a `KeyError`, modelled as
`none`; assignment replaces an existing key in place or appends).
Every operation that can raise a Python `KeyError` returns an `Option`.
External collaborators (the `arcgis` user search) are parameters.
-/

/-- A Python scalar attribute value as it occurs in the scripts:
`None`, an integer (OBJECTID, workerId, dispatcherId), a string
(userId, GlobalID, name, ...), or a boolean. -/
inductive Value where
  | null : Value
  | int : Int → Value
  | str : String → Value
  | bool : Bool → Value
deriving DecidableEq, Repr

/-- Python truthiness of a scalar, as used by
`if source_assignment.attributes["workerId"]:` in `copy_relationship`:
`None`, `0`, `""` and `False` are falsy, everything else truthy. -/
def Value.truthy : Value → Bool
  | .null => false
  | .int n => !(n = 0)
  | .str s => !(s = "")
  | .bool b => b

/-- Dictionary lookup `d[k]` on an association list: the value of the
first entry with the given key, `none` when absent (a Python `KeyError`
at use sites that index directly). -/
def alistGet {κ : Type} [DecidableEq κ] : List (κ × Value) → κ → Option Value
  | [], _ => none
  | p :: rest, k => if p.1 = k then some p.2 else alistGet rest k

/-- Dictionary assignment `d[k] = v`: replace the first entry with the
given key in place, or append a new entry when the key is absent
(Python `dict` insertion-order semantics). -/
def alistSet {κ : Type} [DecidableEq κ] : List (κ × Value) → κ → Value → List (κ × Value)
  | [], k, v => [(k, v)]
  | p :: rest, k, v => if p.1 = k then (k, v) :: rest else p :: alistSet rest k v

/-- A feature record: its attribute dictionary. Geometry is opaque to
the reconciliation logic and carried through unchanged, so it is not
modelled. -/
structure Feature where
  attributes : List (String × Value)
deriving DecidableEq, Repr

/-- Attribute read `f.attributes[k]`. -/
def getAttr (f : Feature) (k : String) : Option Value :=
  alistGet f.attributes k

/-- Attribute write `f.attributes[k] = v`. -/
def setAttr (f : Feature) (k : String) (v : Value) : Feature :=
  ⟨alistSet f.attributes k v⟩

/-- The external organization user search
(`arcgis.gis.UserManager(gis).search(query=username)`), modelled as the
list of usernames the search returns for a query value. -/
def user_exists (search : Value → List Value) (username : Value) : Bool :=
  (search username).any (fun x => decide (x = username))

/-- Inner loop shared by `filter_by_global_id` and `filter_by_user_id`:
scan the destination features in order for the first whose business-key
attribute equals the source feature's, and on a match return the source
feature with `OBJECTID` overwritten by the matched destination feature's
`OBJECTID` (then `break`). `none` models a `KeyError`; `some none` means
the scan completed with no match. -/
def scanDest (key : String) (s : Feature) : List Feature → Option (Option Feature)
  | [] => some none
  | f :: rest =>
    match getAttr s key, getAttr f key with
    | some sv, some fv =>
      if sv = fv then
        match getAttr f "OBJECTID" with
        | some oid => some (some (setAttr s "OBJECTID" oid))
        | none => none
      else scanDest key s rest
    | _, _ => none

/-- `filter_by_global_id` (copy_project.py lines 117-143): partition the
source features into `(features_to_add, features_to_update)` by matching
on `GlobalID` against the destination features. -/
def filter_by_global_id (dest : List Feature) : List Feature → Option (List Feature × List Feature)
  | [] => some ([], [])
  | s :: rest =>
    (scanDest "GlobalID" s dest).bind fun m =>
      (filter_by_global_id dest rest).bind fun p =>
        match m with
        | some s2 => some (p.1, s2 :: p.2)
        | none => some (s :: p.1, p.2)

/-- `filter_by_user_id` (copy_project.py lines 145-174): gate each
source feature through `user_exists` on its `userId` (rejected features
are dropped and a warning naming the `userId` is recorded), then
partition the survivors into `(features_to_add, features_to_update)` by
matching on `userId` against the destination features. The third
component collects the `userId` values named by the emitted warnings,
in source order. -/
def filter_by_user_id (search : Value → List Value) (dest : List Feature) :
    List Feature → Option (List Feature × List Feature × List Value)
  | [] => some ([], [], [])
  | s :: rest =>
    (getAttr s "userId").bind fun uid =>
      if user_exists search uid then
        (scanDest "userId" s dest).bind fun m =>
          (filter_by_user_id search dest rest).bind fun p =>
            match m with
            | some s2 => some (p.1, s2 :: p.2.1, p.2.2)
            | none => some (s :: p.1, p.2.1, p.2.2)
      else
        (filter_by_user_id search dest rest).bind fun p =>
          some (p.1, p.2.1, uid :: p.2.2)

/-- The list comprehension `[w.attributes["userId"] for w in workers_in_fs]`
in `filter_workers` (copy_workers.py line 62): read every destination
worker's `userId`, failing on the first `KeyError`. -/
def readUserIds : List Feature → Option (List Value)
  | [] => some []
  | f :: rest =>
    (getAttr f "userId").bind fun u =>
      (readUserIds rest).bind fun us => some (u :: us)

/-- A warning logged by `filter_workers`: either the user does not exist
in the organization, or the user is already part of the project. Each
carries the rejected `userId` it names. -/
inductive WorkerWarning where
  | userNotFound (uid : Value)
  | alreadyPresent (uid : Value)
deriving DecidableEq, Repr

/-- `filter_workers` (copy_workers.py lines 46-66): the insert-only
variant. A worker whose `userId` fails `user_exists` is dropped with a
`userNotFound` warning; one whose `userId` already appears among the
destination project's workers is dropped with an `alreadyPresent`
warning; all others are appended to the add list. Returns
`(workers_to_add, warnings in source order)`. -/
def filter_workers (search : Value → List Value) (workersInFs : List Feature) :
    List Feature → Option (List Feature × List WorkerWarning)
  | [] => some ([], [])
  | w :: rest =>
    (getAttr w "userId").bind fun uid =>
      if user_exists search uid then
        (readUserIds workersInFs).bind fun destIds =>
          if uid ∈ destIds then
            (filter_workers search workersInFs rest).bind fun p =>
              some (p.1, .alreadyPresent uid :: p.2)
          else
            (filter_workers search workersInFs rest).bind fun p =>
              some (w :: p.1, p.2)
      else
        (filter_workers search workersInFs rest).bind fun p =>
          some (p.1, .userNotFound uid :: p.2)

/-- Inner loop of the identity-map build in `copy_relationship`
(copy_project.py lines 202-205 and 217-220): for one source record,
scan ALL destination records (no break) and on each `userId` match
write `mapping_oid[source.OBJECTID] = destination.OBJECTID`, so a later
match overwrites an earlier one. -/
def buildMappingInner (sw : Feature) : List (Value × Value) → List Feature → Option (List (Value × Value))
  | m, [] => some m
  | m, dw :: rest =>
    (getAttr dw "userId").bind fun du =>
      (getAttr sw "userId").bind fun su =>
        if du = su then
          (getAttr sw "OBJECTID").bind fun sOid =>
            (getAttr dw "OBJECTID").bind fun dOid =>
              buildMappingInner sw (alistSet m sOid dOid) rest
        else buildMappingInner sw m rest

/-- Outer loop of the identity-map build in `copy_relationship`: fold
`buildMappingInner` over the source records in order. -/
def buildMapping (dest : List Feature) : List (Value × Value) → List Feature → Option (List (Value × Value))
  | m, [] => some m
  | m, sw :: rest =>
    (buildMappingInner sw m dest).bind fun m2 => buildMapping dest m2 rest

/-- One remap pass of `copy_relationship` (copy_project.py lines
207-209 and 222-224): for each assignment, read the foreign-key
attribute (a `KeyError` if absent); when its value is truthy, replace
it with `mapping_oid[value]` (a `KeyError`, i.e. `none`, when the map
has no entry); otherwise leave the record unchanged. -/
def remapField (field : String) (m : List (Value × Value)) : List Feature → Option (List Feature)
  | [] => some []
  | a :: rest =>
    (getAttr a field).bind fun v =>
      if v.truthy then
        (alistGet m v).bind fun mv =>
          (remapField field m rest).bind fun rest2 =>
            some (setAttr a field mv :: rest2)
      else
        (remapField field m rest).bind fun rest2 => some (a :: rest2)

/-- `copy_relationship` (copy_project.py lines 187-226): build the
worker identity map, remap every assignment's `workerId`, then build
the dispatcher identity map and remap every assignment's
`dispatcherId`. The worker/dispatcher record lists are the results of
the source and destination feature-layer queries. -/
def copy_relationship (sourceWorkers destinationWorkers sourceDispatchers destinationDispatchers : List Feature)
    (sourceAssignments : List Feature) : Option (List Feature) :=
  (buildMapping destinationWorkers [] sourceWorkers).bind fun wm =>
    (remapField "workerId" wm sourceAssignments).bind fun a1 =>
      (buildMapping destinationDispatchers [] sourceDispatchers).bind fun dm =>
        remapField "dispatcherId" dm a1

/-- A source record survives the existence gate of `filter_by_user_id`
when its `userId` attribute is present and `user_exists` accepts it. -/
def survives (search : Value → List Value) (s : Feature) : Bool :=
  match getAttr s "userId" with
  | some u => user_exists search u
  | none => false

/-- The first destination feature whose business-key attribute equals
the source feature's (the record whose `OBJECTID` the reconcile loops
copy, because they `break` on the first match). -/
def firstMatch (key : String) (s : Feature) (dest : List Feature) : Option Feature :=
  dest.find? (fun d => decide (getAttr d key = getAttr s key))

/-- The last destination feature whose `userId` equals the source
feature's: the record whose `OBJECTID` the identity-map build records,
because its inner scan has no break and later writes overwrite earlier
ones. -/
def lastUserIdMatch (sw : Feature) : List Feature → Option Feature
  | [] => none
  | dw :: rest =>
    match lastUserIdMatch sw rest with
    | some x => some x
    | none => if getAttr dw "userId" = getAttr sw "userId" then some dw else none

/-- Classification of a source feature by the reconcile inner loop:
`true` when the destination scan completes with no match (the feature
goes to the add list unchanged). -/
def gNoMatch (key : String) (dest : List Feature) (s : Feature) : Bool :=
  decide (scanDest key s dest = some none)

/-- The updated feature a source feature turns into when the reconcile
inner loop finds a match (`none` when there is no match or the scan
fails). -/
def gMatch (key : String) (dest : List Feature) (s : Feature) : Option Feature :=
  match scanDest key s dest with
  | some (some s2) => some s2
  | _ => none

/-- The `userId` named by the warning `filter_by_user_id` emits for a
rejected source feature (`none` when the feature passes the gate or
lacks the attribute). -/
def rejectedUid (search : Value → List Value) (s : Feature) : Option Value :=
  match getAttr s "userId" with
  | some uid => if user_exists search uid then none else some uid
  | none => none

/-! ### Dictionary lemmas -/

theorem alistGet_alistSet_same {κ : Type} [DecidableEq κ] (d : List (κ × Value)) (k : κ) (v : Value) :
    alistGet (alistSet d k v) k = some v := by
  induction d with
  | nil => simp [alistGet, alistSet]
  | cons p rest ih =>
    by_cases h : p.1 = k
    · simp [alistSet, h, alistGet]
    · simp [alistSet, h, alistGet, ih]

theorem alistGet_alistSet_ne {κ : Type} [DecidableEq κ] (d : List (κ × Value)) {k k' : κ} (v : Value)
    (h : k' ≠ k) : alistGet (alistSet d k v) k' = alistGet d k' := by
  have hk : ¬ (k = k') := fun e => h e.symm
  induction d with
  | nil => simp [alistGet, alistSet, hk]
  | cons p rest ih =>
    by_cases hp : p.1 = k
    · have hp' : ¬ (p.1 = k') := by rw [hp]; exact hk
      simp [alistSet, hp, alistGet, hk, hp']
    · simp [alistSet, hp, alistGet, ih]

theorem getAttr_setAttr_same (f : Feature) (k : String) (v : Value) :
    getAttr (setAttr f k v) k = some v :=
  alistGet_alistSet_same f.attributes k v

theorem getAttr_setAttr_ne (f : Feature) {k k' : String} (v : Value) (h : k' ≠ k) :
    getAttr (setAttr f k v) k' = getAttr f k' :=
  alistGet_alistSet_ne f.attributes v h

/-! ### Inner-scan lemmas -/

theorem scanDest_cons_none_left {key : String} {s f : Feature} {rest : List Feature}
    (hs : getAttr s key = none) : scanDest key s (f :: rest) = none := by
  rw [scanDest, hs]

theorem scanDest_cons_none_right {key : String} {s f : Feature} {rest : List Feature} {sv : Value}
    (hs : getAttr s key = some sv) (hf : getAttr f key = none) :
    scanDest key s (f :: rest) = none := by
  rw [scanDest, hs, hf]

theorem scanDest_cons_eq {key : String} {s f : Feature} {rest : List Feature} {sv fv : Value}
    (hs : getAttr s key = some sv) (hf : getAttr f key = some fv) :
    scanDest key s (f :: rest) =
      if sv = fv then
        match getAttr f "OBJECTID" with
        | some oid => some (some (setAttr s "OBJECTID" oid))
        | none => none
      else scanDest key s rest := by
  rw [scanDest, hs, hf]

theorem firstMatch_cons_pos {key : String} {s f : Feature} {rest : List Feature}
    (h : getAttr f key = getAttr s key) : firstMatch key s (f :: rest) = some f := by
  rw [firstMatch, List.find?_cons_of_pos rest (by simp [h])]

theorem firstMatch_cons_neg {key : String} {s f : Feature} {rest : List Feature}
    (h : getAttr f key ≠ getAttr s key) :
    firstMatch key s (f :: rest) = firstMatch key s rest := by
  rw [firstMatch, List.find?_cons_of_neg rest (by simp [h]), firstMatch]

theorem scanDest_none_all {key : String} {s : Feature} {dest : List Feature}
    (h : scanDest key s dest = some none) :
    ∀ d ∈ dest, getAttr d key ≠ getAttr s key := by
  induction dest with
  | nil => intro d hd; cases hd
  | cons f rest ih =>
    intro d hd
    cases hs : getAttr s key with
    | none => rw [scanDest_cons_none_left hs] at h; cases h
    | some sv =>
      cases hf : getAttr f key with
      | none => rw [scanDest_cons_none_right hs hf] at h; cases h
      | some fv =>
        rw [scanDest_cons_eq hs hf] at h
        by_cases he : sv = fv
        · rw [if_pos he] at h
          cases ho : getAttr f "OBJECTID" with
          | none => rw [ho] at h; cases h
          | some oid => rw [ho] at h; cases h
        · rw [if_neg he] at h
          rcases List.mem_cons.mp hd with rfl | hd2
          · rw [hf]; intro hc; exact he (Option.some.inj hc).symm
          · have hne := ih h d hd2
            rw [hs] at hne
            exact hne

theorem scanDest_some_firstMatch {key : String} {s s2 : Feature} {dest : List Feature}
    (h : scanDest key s dest = some (some s2)) :
    ∃ d oid, firstMatch key s dest = some d ∧ getAttr d "OBJECTID" = some oid ∧
      s2 = setAttr s "OBJECTID" oid := by
  induction dest with
  | nil => rw [scanDest] at h; cases h
  | cons f rest ih =>
    cases hs : getAttr s key with
    | none => rw [scanDest_cons_none_left hs] at h; cases h
    | some sv =>
      cases hf : getAttr f key with
      | none => rw [scanDest_cons_none_right hs hf] at h; cases h
      | some fv =>
        rw [scanDest_cons_eq hs hf] at h
        by_cases he : sv = fv
        · rw [if_pos he] at h
          cases ho : getAttr f "OBJECTID" with
          | none => rw [ho] at h; cases h
          | some oid =>
            rw [ho] at h
            refine ⟨f, oid, ?_, ho, (Option.some.inj (Option.some.inj h)).symm⟩
            exact firstMatch_cons_pos (by rw [hf, hs, he])
        · rw [if_neg he] at h
          obtain ⟨d, oid, hfm, ho, hs2⟩ := ih h
          have hne : getAttr f key ≠ getAttr s key := by
            rw [hf, hs]; intro hc; exact he (Option.some.inj hc).symm
          rw [firstMatch_cons_neg hne]
          exact ⟨d, oid, hfm, ho, hs2⟩

theorem scanDest_some_decomp {key : String} {s s2 : Feature} {dest : List Feature}
    (h : scanDest key s dest = some (some s2)) :
    ∃ pre d post oid, dest = pre ++ d :: post ∧
      (∀ d' ∈ pre, getAttr d' key ≠ getAttr s key) ∧
      getAttr d key = getAttr s key ∧
      getAttr d "OBJECTID" = some oid ∧ s2 = setAttr s "OBJECTID" oid := by
  induction dest with
  | nil => rw [scanDest] at h; cases h
  | cons f rest ih =>
    cases hs : getAttr s key with
    | none => rw [scanDest_cons_none_left hs] at h; cases h
    | some sv =>
      cases hf : getAttr f key with
      | none => rw [scanDest_cons_none_right hs hf] at h; cases h
      | some fv =>
        rw [scanDest_cons_eq hs hf] at h
        by_cases he : sv = fv
        · rw [if_pos he] at h
          cases ho : getAttr f "OBJECTID" with
          | none => rw [ho] at h; cases h
          | some oid =>
            rw [ho] at h
            refine ⟨[], f, rest, oid, rfl, ?_, ?_, ho,
              (Option.some.inj (Option.some.inj h)).symm⟩
            · intro d' hd'; cases hd'
            · rw [hf, he]
        · rw [if_neg he] at h
          obtain ⟨pre, d, post, oid, hdec, hpre, hd, ho, hs2⟩ := ih h
          rw [hs] at hd
          refine ⟨f :: pre, d, post, oid, by rw [hdec]; rfl, ?_, hd, ho, hs2⟩
          intro d' hd'
          rcases List.mem_cons.mp hd' with rfl | hd2
          · rw [hf]; intro hc; exact he (Option.some.inj hc).symm
          · have hne := hpre d' hd2
            rw [hs] at hne
            exact hne

theorem scanDest_match_isSome {key : String} {s : Feature} {dest : List Feature} {v : Value}
    (hs : getAttr s key = some v)
    (hdest : ∀ d ∈ dest, (getAttr d key).isSome ∧ (getAttr d "OBJECTID").isSome)
    (hex : ∃ d ∈ dest, getAttr d key = some v) :
    ∃ s2, scanDest key s dest = some (some s2) := by
  induction dest with
  | nil => obtain ⟨d, hd, _⟩ := hex; cases hd
  | cons f rest ih =>
    obtain ⟨fv, hf⟩ := Option.isSome_iff_exists.mp (hdest f (List.mem_cons_self f rest)).1
    by_cases he : v = fv
    · obtain ⟨oid, ho⟩ := Option.isSome_iff_exists.mp (hdest f (List.mem_cons_self f rest)).2
      refine ⟨setAttr s "OBJECTID" oid, ?_⟩
      rw [scanDest_cons_eq hs hf, if_pos he, ho]
    · have hex2 : ∃ d ∈ rest, getAttr d key = some v := by
        obtain ⟨d, hd, hdv⟩ := hex
        rcases List.mem_cons.mp hd with rfl | hd2
        · rw [hf] at hdv; exact absurd (Option.some.inj hdv).symm he
        · exact ⟨d, hd2, hdv⟩
      obtain ⟨s2, hsc⟩ := ih (fun d hd => hdest d (List.mem_cons_of_mem f hd)) hex2
      refine ⟨s2, ?_⟩
      rw [scanDest_cons_eq hs hf, if_neg he]
      exact hsc


/-! ### Reconcile-filter characterization -/

theorem filter_by_global_id_char {dest src : List Feature} {a u : List Feature}
    (h : filter_by_global_id dest src = some (a, u)) :
    a = src.filter (gNoMatch "GlobalID" dest) ∧
    u = src.filterMap (gMatch "GlobalID" dest) := by
  induction src generalizing a u with
  | nil =>
    rw [filter_by_global_id] at h
    simp only [Option.some.injEq, Prod.mk.injEq] at h
    obtain ⟨rfl, rfl⟩ := h
    simp
  | cons s rest ih =>
    rw [filter_by_global_id] at h
    cases hm : scanDest "GlobalID" s dest with
    | none => rw [hm, Option.none_bind] at h; cases h
    | some m =>
      rw [hm, Option.some_bind] at h
      cases hrec : filter_by_global_id dest rest with
      | none => rw [hrec, Option.none_bind] at h; cases h
      | some p =>
        obtain ⟨adds, upds⟩ := p
        rw [hrec, Option.some_bind] at h
        obtain ⟨hA, hU⟩ := ih hrec
        cases m with
        | some s2 =>
          simp only [Option.some.injEq, Prod.mk.injEq] at h
          obtain ⟨rfl, rfl⟩ := h
          have hno : gNoMatch "GlobalID" dest s = false := by simp [gNoMatch, hm]
          have hma : gMatch "GlobalID" dest s = some s2 := by simp [gMatch, hm]
          constructor
          · simp [List.filter_cons, hno, hA]
          · simp [List.filterMap_cons, hma, hU]
        | none =>
          simp only [Option.some.injEq, Prod.mk.injEq] at h
          obtain ⟨rfl, rfl⟩ := h
          have hno : gNoMatch "GlobalID" dest s = true := by simp [gNoMatch, hm]
          have hma : gMatch "GlobalID" dest s = none := by simp [gMatch, hm]
          constructor
          · simp [List.filter_cons, hno, hA]
          · simp [List.filterMap_cons, hma, hU]

theorem filter_by_global_id_length {dest src : List Feature} {a u : List Feature}
    (h : filter_by_global_id dest src = some (a, u)) :
    a.length + u.length = src.length := by
  induction src generalizing a u with
  | nil =>
    rw [filter_by_global_id] at h
    simp only [Option.some.injEq, Prod.mk.injEq] at h
    obtain ⟨rfl, rfl⟩ := h
    simp
  | cons s rest ih =>
    rw [filter_by_global_id] at h
    cases hm : scanDest "GlobalID" s dest with
    | none => rw [hm, Option.none_bind] at h; cases h
    | some m =>
      rw [hm, Option.some_bind] at h
      cases hrec : filter_by_global_id dest rest with
      | none => rw [hrec, Option.none_bind] at h; cases h
      | some p =>
        obtain ⟨adds, upds⟩ := p
        rw [hrec, Option.some_bind] at h
        have hlen := ih hrec
        cases m with
        | some s2 =>
          simp only [Option.some.injEq, Prod.mk.injEq] at h
          obtain ⟨rfl, rfl⟩ := h
          simp only [List.length_cons]
          omega
        | none =>
          simp only [Option.some.injEq, Prod.mk.injEq] at h
          obtain ⟨rfl, rfl⟩ := h
          simp only [List.length_cons]
          omega

theorem filter_by_user_id_char {search : Value → List Value} {dest src : List Feature}
    {a u : List Feature} {w : List Value}
    (h : filter_by_user_id search dest src = some (a, u, w)) :
    a = (src.filter (survives search)).filter (gNoMatch "userId" dest) ∧
    u = (src.filter (survives search)).filterMap (gMatch "userId" dest) ∧
    w = src.filterMap (rejectedUid search) := by
  induction src generalizing a u w with
  | nil =>
    rw [filter_by_user_id] at h
    simp only [Option.some.injEq, Prod.mk.injEq] at h
    obtain ⟨rfl, rfl, rfl⟩ := h
    simp
  | cons s rest ih =>
    rw [filter_by_user_id] at h
    cases hu : getAttr s "userId" with
    | none => rw [hu, Option.none_bind] at h; cases h
    | some uid =>
      rw [hu, Option.some_bind] at h
      cases hue : user_exists search uid with
      | false =>
        rw [if_neg (by simp [hue])] at h
        cases hrec : filter_by_user_id search dest rest with
        | none => rw [hrec, Option.none_bind] at h; cases h
        | some p =>
          obtain ⟨adds, upds, warns⟩ := p
          rw [hrec, Option.some_bind] at h
          obtain ⟨hA, hU, hW⟩ := ih hrec
          simp only [Option.some.injEq, Prod.mk.injEq] at h
          obtain ⟨rfl, rfl, rfl⟩ := h
          have hsv : survives search s = false := by simp [survives, hu, hue]
          have hrj : rejectedUid search s = some uid := by simp [rejectedUid, hu, hue]
          refine ⟨?_, ?_, ?_⟩
          · simp [List.filter_cons, hsv, hA]
          · simp [List.filter_cons, hsv, hU]
          · simp [List.filterMap_cons, hrj, hW]
      | true =>
        rw [if_pos hue] at h
        cases hm : scanDest "userId" s dest with
        | none => rw [hm, Option.none_bind] at h; cases h
        | some m =>
          rw [hm, Option.some_bind] at h
          cases hrec : filter_by_user_id search dest rest with
          | none => rw [hrec, Option.none_bind] at h; cases h
          | some p =>
            obtain ⟨adds, upds, warns⟩ := p
            rw [hrec, Option.some_bind] at h
            obtain ⟨hA, hU, hW⟩ := ih hrec
            have hsv : survives search s = true := by simp [survives, hu, hue]
            have hrj : rejectedUid search s = none := by simp [rejectedUid, hu, hue]
            cases m with
            | some s2 =>
              simp only [Option.some.injEq, Prod.mk.injEq] at h
              obtain ⟨rfl, rfl, rfl⟩ := h
              have hno : gNoMatch "userId" dest s = false := by simp [gNoMatch, hm]
              have hma : gMatch "userId" dest s = some s2 := by simp [gMatch, hm]
              refine ⟨?_, ?_, ?_⟩
              · simp [List.filter_cons, hsv, hno, hA]
              · simp [List.filter_cons, List.filterMap_cons, hsv, hma, hU]
              · simp [List.filterMap_cons, hrj, hW]
            | none =>
              simp only [Option.some.injEq, Prod.mk.injEq] at h
              obtain ⟨rfl, rfl, rfl⟩ := h
              have hno : gNoMatch "userId" dest s = true := by simp [gNoMatch, hm]
              have hma : gMatch "userId" dest s = none := by simp [gMatch, hm]
              refine ⟨?_, ?_, ?_⟩
              · simp [List.filter_cons, hsv, hno, hA]
              · simp [List.filter_cons, List.filterMap_cons, hsv, hma, hU]
              · simp [List.filterMap_cons, hrj, hW]

theorem filter_by_user_id_length {search : Value → List Value} {dest src : List Feature}
    {a u : List Feature} {w : List Value}
    (h : filter_by_user_id search dest src = some (a, u, w)) :
    a.length + u.length = (src.filter (survives search)).length := by
  induction src generalizing a u w with
  | nil =>
    rw [filter_by_user_id] at h
    simp only [Option.some.injEq, Prod.mk.injEq] at h
    obtain ⟨rfl, rfl, rfl⟩ := h
    simp
  | cons s rest ih =>
    rw [filter_by_user_id] at h
    cases hu : getAttr s "userId" with
    | none => rw [hu, Option.none_bind] at h; cases h
    | some uid =>
      rw [hu, Option.some_bind] at h
      cases hue : user_exists search uid with
      | false =>
        rw [if_neg (by simp [hue])] at h
        cases hrec : filter_by_user_id search dest rest with
        | none => rw [hrec, Option.none_bind] at h; cases h
        | some p =>
          obtain ⟨adds, upds, warns⟩ := p
          rw [hrec, Option.some_bind] at h
          have hlen := ih hrec
          simp only [Option.some.injEq, Prod.mk.injEq] at h
          obtain ⟨rfl, rfl, rfl⟩ := h
          have hsv : survives search s = false := by simp [survives, hu, hue]
          simp [List.filter_cons, hsv, hlen]
      | true =>
        rw [if_pos hue] at h
        cases hm : scanDest "userId" s dest with
        | none => rw [hm, Option.none_bind] at h; cases h
        | some m =>
          rw [hm, Option.some_bind] at h
          cases hrec : filter_by_user_id search dest rest with
          | none => rw [hrec, Option.none_bind] at h; cases h
          | some p =>
            obtain ⟨adds, upds, warns⟩ := p
            rw [hrec, Option.some_bind] at h
            have hlen := ih hrec
            have hsv : survives search s = true := by simp [survives, hu, hue]
            cases m with
            | some s2 =>
              simp only [Option.some.injEq, Prod.mk.injEq] at h
              obtain ⟨rfl, rfl, rfl⟩ := h
              simp [List.filter_cons, hsv, List.length_cons]
              omega
            | none =>
              simp only [Option.some.injEq, Prod.mk.injEq] at h
              obtain ⟨rfl, rfl, rfl⟩ := h
              simp [List.filter_cons, hsv, List.length_cons]
              omega

/-! ### Disjointness of the two output lists -/

theorem gMatch_eq_some_scan {key : String} {dest : List Feature} {s f : Feature}
    (hgs : gMatch key dest s = some f) : scanDest key s dest = some (some f) := by
  unfold gMatch at hgs
  cases hsd : scanDest key s dest with
  | none => rw [hsd] at hgs; cases hgs
  | some m =>
    cases m with
    | none => rw [hsd] at hgs; cases hgs
    | some s2 => rw [hsd] at hgs; cases hgs; rfl

theorem adds_upds_disjoint {key : String} {dest l l' : List Feature}
    (hkey : key ≠ "OBJECTID") :
    ∀ f, f ∈ l.filter (gNoMatch key dest) → f ∈ l'.filterMap (gMatch key dest) → False := by
  intro f hfa hfu
  obtain ⟨-, hfa2⟩ := List.mem_filter.mp hfa
  have hnone : scanDest key f dest = some none := by simpa [gNoMatch] using hfa2
  obtain ⟨s, hs, hgs⟩ := List.mem_filterMap.mp hfu
  have hscan : scanDest key s dest = some (some f) := gMatch_eq_some_scan hgs
  obtain ⟨pre, d, post, oid, hdec, hpre, hd, ho, hf⟩ := scanDest_some_decomp hscan
  have hdmem : d ∈ dest := by rw [hdec]; exact List.mem_append_right pre (List.mem_cons_self d post)
  have hfkey : getAttr f key = getAttr s key := by
    rw [hf]; exact getAttr_setAttr_ne s oid hkey
  have := scanDest_none_all hnone d hdmem
  rw [hfkey] at this
  exact this hd

/-! ### Concrete records used by the witnesses -/

/-- A user search that finds every queried username. -/
def searchYes : Value → List Value := fun v => [v]

/-- A user search that finds no account at all. -/
def searchNo : Value → List Value := fun _ => []

/-! ### Claim theorems -/

/-- C1: for every list of source records and every list of destination
records, the reconcile operation (`filter_by_user_id` for
workers/dispatchers, `filter_by_global_id` for assignments/tracks)
partitions the source records that pass the existence filter into two
disjoint lists `toAdd` and `toUpdate`: each surviving source record
lands in exactly one of the two lists (unchanged in `toAdd` on no match,
as its updated version in `toUpdate` on a match), and
`|toAdd| + |toUpdate|` equals the number of source records remaining
after existence filtering. -/
theorem C1_reconcile_partition (search : Value → List Value)
    (src dest srcU destU : List Feature)
    {aG uG aU uU : List Feature} {wU : List Value}
    (hG : filter_by_global_id dest src = some (aG, uG))
    (hU : filter_by_user_id search destU srcU = some (aU, uU, wU)) :
    (aG.length + uG.length = src.length ∧
     (∀ f ∈ aG, f ∉ uG) ∧
     (∀ s ∈ src, scanDest "GlobalID" s dest = some none → s ∈ aG) ∧
     (∀ s ∈ src, ∀ s2, scanDest "GlobalID" s dest = some (some s2) → s2 ∈ uG)) ∧
    (aU.length + uU.length = (srcU.filter (survives search)).length ∧
     (∀ f ∈ aU, f ∉ uU) ∧
     (∀ s ∈ srcU, survives search s = true → scanDest "userId" s destU = some none → s ∈ aU) ∧
     (∀ s ∈ srcU, survives search s = true →
        ∀ s2, scanDest "userId" s destU = some (some s2) → s2 ∈ uU)) := by
  obtain ⟨hAG, hUG⟩ := filter_by_global_id_char hG
  obtain ⟨hAU, hUU, hWU⟩ := filter_by_user_id_char hU
  refine ⟨⟨filter_by_global_id_length hG, ?_, ?_, ?_⟩,
          ⟨filter_by_user_id_length hU, ?_, ?_, ?_⟩⟩
  · intro f hfa hfu
    rw [hAG] at hfa
    rw [hUG] at hfu
    exact adds_upds_disjoint (by decide) f hfa hfu
  · intro s hs hscan
    rw [hAG]
    exact List.mem_filter.mpr ⟨hs, by simp [gNoMatch, hscan]⟩
  · intro s hs s2 hscan
    rw [hUG]
    exact List.mem_filterMap.mpr ⟨s, hs, by simp [gMatch, hscan]⟩
  · intro f hfa hfu
    rw [hAU] at hfa
    rw [hUU] at hfu
    exact adds_upds_disjoint (by decide) f hfa hfu
  · intro s hs hsv hscan
    rw [hAU]
    exact List.mem_filter.mpr ⟨List.mem_filter.mpr ⟨hs, hsv⟩, by simp [gNoMatch, hscan]⟩
  · intro s hs hsv s2 hscan
    rw [hUU]
    exact List.mem_filterMap.mpr ⟨s, List.mem_filter.mpr ⟨hs, hsv⟩, by simp [gMatch, hscan]⟩

/-- The concrete source assignment list of the C1 witness. -/
def c1src : List Feature := [⟨[("GlobalID", .str "G1")]⟩]

/-- The concrete destination assignment list of the C1 witness. -/
def c1dst : List Feature := [⟨[("GlobalID", .str "G1"), ("OBJECTID", .int 9)]⟩]

/-- The updated record the C1 witness source turns into. -/
def c1upd : Feature := ⟨[("GlobalID", .str "G1"), ("OBJECTID", .int 9)]⟩

/-- The concrete source worker of the C1 witness. -/
def c1w : Feature := ⟨[("userId", .str "bob")]⟩

/-- Witness for C1 at concrete records: one assignment that matches the
destination by `GlobalID` and one worker with no destination match. -/
theorem C1_reconcile_partition_witness :
    filter_by_global_id c1dst c1src = some ([], [c1upd]) ∧
    filter_by_user_id searchYes [] [c1w] = some ([c1w], [], []) ∧
    ((([] : List Feature).length + [c1upd].length = c1src.length ∧
      (∀ f ∈ ([] : List Feature), f ∉ [c1upd]) ∧
      (∀ s ∈ c1src, scanDest "GlobalID" s c1dst = some none → s ∈ ([] : List Feature)) ∧
      (∀ s ∈ c1src, ∀ s2, scanDest "GlobalID" s c1dst = some (some s2) → s2 ∈ [c1upd])) ∧
     ([c1w].length + ([] : List Feature).length = ([c1w].filter (survives searchYes)).length ∧
      (∀ f ∈ [c1w], f ∉ ([] : List Feature)) ∧
      (∀ s ∈ [c1w], survives searchYes s = true →
         scanDest "userId" s [] = some none → s ∈ [c1w]) ∧
      (∀ s ∈ [c1w], survives searchYes s = true →
         ∀ s2, scanDest "userId" s [] = some (some s2) → s2 ∈ ([] : List Feature)))) :=
  ⟨rfl, rfl, C1_reconcile_partition searchYes c1src c1dst [c1w] [] rfl rfl⟩

/-- C3: every source record that matches some destination record on the
business-key field is placed in `toUpdate` as the source record with its
`OBJECTID` attribute overwritten by the matched (first-matching)
destination record's `OBJECTID`; the resulting surrogate key is the
destination record's value whatever `OBJECTID` the source carried. -/
theorem C3_update_gets_destination_key (search : Value → List Value)
    (src dest srcU destU : List Feature)
    {aG uG aU uU : List Feature} {wU : List Value}
    (hG : filter_by_global_id dest src = some (aG, uG))
    (hU : filter_by_user_id search destU srcU = some (aU, uU, wU)) :
    (∀ s ∈ src, ∀ s2, scanDest "GlobalID" s dest = some (some s2) →
       s2 ∈ uG ∧ ∃ d oid, firstMatch "GlobalID" s dest = some d ∧
         getAttr d "OBJECTID" = some oid ∧ s2 = setAttr s "OBJECTID" oid ∧
         getAttr s2 "OBJECTID" = some oid) ∧
    (∀ s ∈ srcU, survives search s = true →
       ∀ s2, scanDest "userId" s destU = some (some s2) →
       s2 ∈ uU ∧ ∃ d oid, firstMatch "userId" s destU = some d ∧
         getAttr d "OBJECTID" = some oid ∧ s2 = setAttr s "OBJECTID" oid ∧
         getAttr s2 "OBJECTID" = some oid) := by
  obtain ⟨hAG, hUG⟩ := filter_by_global_id_char hG
  obtain ⟨hAU, hUU, hWU⟩ := filter_by_user_id_char hU
  constructor
  · intro s hs s2 hscan
    obtain ⟨d, oid, hfm, ho, hset⟩ := scanDest_some_firstMatch hscan
    refine ⟨?_, d, oid, hfm, ho, hset, ?_⟩
    · rw [hUG]
      exact List.mem_filterMap.mpr ⟨s, hs, by simp [gMatch, hscan]⟩
    · rw [hset]; exact getAttr_setAttr_same s "OBJECTID" oid
  · intro s hs hsv s2 hscan
    obtain ⟨d, oid, hfm, ho, hset⟩ := scanDest_some_firstMatch hscan
    refine ⟨?_, d, oid, hfm, ho, hset, ?_⟩
    · rw [hUU]
      exact List.mem_filterMap.mpr ⟨s, List.mem_filter.mpr ⟨hs, hsv⟩, by simp [gMatch, hscan]⟩
    · rw [hset]; exact getAttr_setAttr_same s "OBJECTID" oid

/-- The C3 witness source assignment: it carries its own source-side
`OBJECTID` 2, which the reconcile overwrites. -/
def c3s : Feature := ⟨[("GlobalID", .str "G1"), ("OBJECTID", .int 2)]⟩

/-- The C3 witness destination assignment with surrogate key 9. -/
def c3d : Feature := ⟨[("GlobalID", .str "G1"), ("OBJECTID", .int 9)]⟩

/-- The C3 witness source worker with source-side `OBJECTID` 2. -/
def c3ws : Feature := ⟨[("userId", .str "bob"), ("OBJECTID", .int 2)]⟩

/-- The C3 witness destination worker with surrogate key 9. -/
def c3wd : Feature := ⟨[("userId", .str "bob"), ("OBJECTID", .int 9)]⟩

/-- Witness for C3: both filters place the matched record in `toUpdate`
with `OBJECTID` 9 from the destination, overwriting the source's 2. -/
theorem C3_update_gets_destination_key_witness :
    filter_by_global_id [c3d] [c3s] = some ([], [setAttr c3s "OBJECTID" (.int 9)]) ∧
    filter_by_user_id searchYes [c3wd] [c3ws] =
      some ([], [setAttr c3ws "OBJECTID" (.int 9)], []) ∧
    ((∀ s ∈ [c3s], ∀ s2, scanDest "GlobalID" s [c3d] = some (some s2) →
        s2 ∈ [setAttr c3s "OBJECTID" (.int 9)] ∧
        ∃ d oid, firstMatch "GlobalID" s [c3d] = some d ∧
          getAttr d "OBJECTID" = some oid ∧ s2 = setAttr s "OBJECTID" oid ∧
          getAttr s2 "OBJECTID" = some oid) ∧
     (∀ s ∈ [c3ws], survives searchYes s = true →
        ∀ s2, scanDest "userId" s [c3wd] = some (some s2) →
        s2 ∈ [setAttr c3ws "OBJECTID" (.int 9)] ∧
        ∃ d oid, firstMatch "userId" s [c3wd] = some d ∧
          getAttr d "OBJECTID" = some oid ∧ s2 = setAttr s "OBJECTID" oid ∧
          getAttr s2 "OBJECTID" = some oid)) :=
  ⟨rfl, rfl, C3_update_gets_destination_key searchYes [c3s] [c3d] [c3ws] [c3wd] rfl rfl⟩

/-- C8: tie-break. For every matched source record the destination list
splits as `pre ++ d :: post` where no record of `pre` matches the
source's business key, `d` does, and the `OBJECTID` copied onto the
update record is `d`'s — the first matching destination record in scan
order wins and later matches are ignored. -/
theorem C8_first_match_wins (search : Value → List Value)
    (src dest srcU destU : List Feature)
    {aG uG aU uU : List Feature} {wU : List Value}
    (hG : filter_by_global_id dest src = some (aG, uG))
    (hU : filter_by_user_id search destU srcU = some (aU, uU, wU)) :
    (∀ s ∈ src, ∀ s2, scanDest "GlobalID" s dest = some (some s2) →
       s2 ∈ uG ∧
       ∃ pre d post oid, dest = pre ++ d :: post ∧
         (∀ d' ∈ pre, getAttr d' "GlobalID" ≠ getAttr s "GlobalID") ∧
         getAttr d "GlobalID" = getAttr s "GlobalID" ∧
         getAttr d "OBJECTID" = some oid ∧
         s2 = setAttr s "OBJECTID" oid ∧ getAttr s2 "OBJECTID" = some oid) ∧
    (∀ s ∈ srcU, survives search s = true →
       ∀ s2, scanDest "userId" s destU = some (some s2) →
       s2 ∈ uU ∧
       ∃ pre d post oid, destU = pre ++ d :: post ∧
         (∀ d' ∈ pre, getAttr d' "userId" ≠ getAttr s "userId") ∧
         getAttr d "userId" = getAttr s "userId" ∧
         getAttr d "OBJECTID" = some oid ∧
         s2 = setAttr s "OBJECTID" oid ∧ getAttr s2 "OBJECTID" = some oid) := by
  obtain ⟨hAG, hUG⟩ := filter_by_global_id_char hG
  obtain ⟨hAU, hUU, hWU⟩ := filter_by_user_id_char hU
  constructor
  · intro s hs s2 hscan
    obtain ⟨pre, d, post, oid, hdec, hpre, hd, ho, hset⟩ := scanDest_some_decomp hscan
    refine ⟨?_, pre, d, post, oid, hdec, hpre, hd, ho, hset,
      hset ▸ getAttr_setAttr_same s "OBJECTID" oid⟩
    rw [hUG]
    exact List.mem_filterMap.mpr ⟨s, hs, by simp [gMatch, hscan]⟩
  · intro s hs hsv s2 hscan
    obtain ⟨pre, d, post, oid, hdec, hpre, hd, ho, hset⟩ := scanDest_some_decomp hscan
    refine ⟨?_, pre, d, post, oid, hdec, hpre, hd, ho, hset,
      hset ▸ getAttr_setAttr_same s "OBJECTID" oid⟩
    rw [hUU]
    exact List.mem_filterMap.mpr ⟨s, List.mem_filter.mpr ⟨hs, hsv⟩, by simp [gMatch, hscan]⟩

/-- The C8 witness destination holds two records matching `GlobalID`
"G1": the first has `OBJECTID` 5, the second `OBJECTID` 9. -/
def c8d1 : Feature := ⟨[("GlobalID", .str "G1"), ("OBJECTID", .int 5)]⟩

/-- The second, ignored matching destination record of the C8 witness. -/
def c8d2 : Feature := ⟨[("GlobalID", .str "G1"), ("OBJECTID", .int 9)]⟩

/-- The two matching destination workers of the C8 witness. -/
def c8w1 : Feature := ⟨[("userId", .str "bob"), ("OBJECTID", .int 5)]⟩

/-- The second, ignored matching destination worker of the C8 witness. -/
def c8w2 : Feature := ⟨[("userId", .str "bob"), ("OBJECTID", .int 9)]⟩

/-- Witness for C8: with two matching destination records the copied
`OBJECTID` is the first one's (5, not 9), for both filters. -/
theorem C8_first_match_wins_witness :
    filter_by_global_id [c8d1, c8d2] [⟨[("GlobalID", .str "G1")]⟩] =
      some ([], [⟨[("GlobalID", .str "G1"), ("OBJECTID", .int 5)]⟩]) ∧
    filter_by_user_id searchYes [c8w1, c8w2] [c1w] =
      some ([], [⟨[("userId", .str "bob"), ("OBJECTID", .int 5)]⟩], []) ∧
    ((∀ s ∈ [(⟨[("GlobalID", .str "G1")]⟩ : Feature)], ∀ s2,
        scanDest "GlobalID" s [c8d1, c8d2] = some (some s2) →
        s2 ∈ [(⟨[("GlobalID", .str "G1"), ("OBJECTID", .int 5)]⟩ : Feature)] ∧
        ∃ pre d post oid, [c8d1, c8d2] = pre ++ d :: post ∧
          (∀ d' ∈ pre, getAttr d' "GlobalID" ≠ getAttr s "GlobalID") ∧
          getAttr d "GlobalID" = getAttr s "GlobalID" ∧
          getAttr d "OBJECTID" = some oid ∧
          s2 = setAttr s "OBJECTID" oid ∧ getAttr s2 "OBJECTID" = some oid) ∧
     (∀ s ∈ [c1w], survives searchYes s = true → ∀ s2,
        scanDest "userId" s [c8w1, c8w2] = some (some s2) →
        s2 ∈ [(⟨[("userId", .str "bob"), ("OBJECTID", .int 5)]⟩ : Feature)] ∧
        ∃ pre d post oid, [c8w1, c8w2] = pre ++ d :: post ∧
          (∀ d' ∈ pre, getAttr d' "userId" ≠ getAttr s "userId") ∧
          getAttr d "userId" = getAttr s "userId" ∧
          getAttr d "OBJECTID" = some oid ∧
          s2 = setAttr s "OBJECTID" oid ∧ getAttr s2 "OBJECTID" = some oid)) :=
  ⟨rfl, rfl, C8_first_match_wins searchYes
    [⟨[("GlobalID", .str "G1")]⟩] [c8d1, c8d2] [c1w] [c8w1, c8w2] rfl rfl⟩

/-! ### Idempotence -/

theorem filter_by_global_id_all_matched {dest src : List Feature}
    (hdest : ∀ d ∈ dest, (getAttr d "GlobalID").isSome ∧ (getAttr d "OBJECTID").isSome)
    (hsrc : ∀ s ∈ src, ∃ v, getAttr s "GlobalID" = some v ∧
      ∃ d ∈ dest, getAttr d "GlobalID" = some v) :
    ∃ u, filter_by_global_id dest src = some ([], u) ∧ u.length = src.length := by
  induction src with
  | nil => exact ⟨[], rfl, rfl⟩
  | cons s rest ih =>
    obtain ⟨v, hv, hex⟩ := hsrc s (List.mem_cons_self s rest)
    obtain ⟨s2, hm⟩ := scanDest_match_isSome hv hdest hex
    obtain ⟨u, hu, hlen⟩ := ih (fun s hs => hsrc s (List.mem_cons_of_mem _ hs))
    refine ⟨s2 :: u, ?_, by simp [hlen]⟩
    rw [filter_by_global_id, hm, Option.some_bind, hu, Option.some_bind]

theorem filter_by_user_id_all_matched {search : Value → List Value} {dest src : List Feature}
    (hdest : ∀ d ∈ dest, (getAttr d "userId").isSome ∧ (getAttr d "OBJECTID").isSome)
    (hsrc : ∀ s ∈ src, ∃ v, getAttr s "userId" = some v ∧ user_exists search v = true ∧
      ∃ d ∈ dest, getAttr d "userId" = some v) :
    ∃ u, filter_by_user_id search dest src = some ([], u, []) ∧ u.length = src.length := by
  induction src with
  | nil => exact ⟨[], rfl, rfl⟩
  | cons s rest ih =>
    obtain ⟨v, hv, hue, hex⟩ := hsrc s (List.mem_cons_self s rest)
    obtain ⟨s2, hm⟩ := scanDest_match_isSome hv hdest hex
    obtain ⟨u, hu, hlen⟩ := ih (fun s hs => hsrc s (List.mem_cons_of_mem _ hs))
    refine ⟨s2 :: u, ?_, by simp [hlen]⟩
    rw [filter_by_user_id, hv, Option.some_bind, if_pos hue, hm, Option.some_bind,
      hu, Option.some_bind]

/-- C7: idempotence of reconciliation. When every source record passes
the existence filter and every source record's business key already
equals the business key of some destination record (the state after a
complete prior run, whose destination records all carry defined keys),
the reconcile returns an empty `toAdd` and a `toUpdate` holding all
source records (one updated record per source record, no warnings). -/
theorem C7_second_run_idempotent (search : Value → List Value)
    (src dest srcU destU : List Feature)
    (hdest : ∀ d ∈ dest, (getAttr d "GlobalID").isSome ∧ (getAttr d "OBJECTID").isSome)
    (hsrc : ∀ s ∈ src, ∃ v, getAttr s "GlobalID" = some v ∧
       ∃ d ∈ dest, getAttr d "GlobalID" = some v)
    (hdestU : ∀ d ∈ destU, (getAttr d "userId").isSome ∧ (getAttr d "OBJECTID").isSome)
    (hsrcU : ∀ s ∈ srcU, ∃ v, getAttr s "userId" = some v ∧ user_exists search v = true ∧
       ∃ d ∈ destU, getAttr d "userId" = some v) :
    (∃ u, filter_by_global_id dest src = some ([], u) ∧ u.length = src.length) ∧
    (∃ u, filter_by_user_id search destU srcU = some ([], u, []) ∧ u.length = srcU.length) :=
  ⟨filter_by_global_id_all_matched hdest hsrc,
   filter_by_user_id_all_matched hdestU hsrcU⟩

/-- Witness for C7 at the state a first run leaves behind: each source
record already matches a destination record by business key. -/
theorem C7_second_run_idempotent_witness :
    (∀ d ∈ [c3d], (getAttr d "GlobalID").isSome ∧ (getAttr d "OBJECTID").isSome) ∧
    (∀ s ∈ [c3s], ∃ v, getAttr s "GlobalID" = some v ∧
       ∃ d ∈ [c3d], getAttr d "GlobalID" = some v) ∧
    (∀ d ∈ [c3wd], (getAttr d "userId").isSome ∧ (getAttr d "OBJECTID").isSome) ∧
    (∀ s ∈ [c3ws], ∃ v, getAttr s "userId" = some v ∧ user_exists searchYes v = true ∧
       ∃ d ∈ [c3wd], getAttr d "userId" = some v) ∧
    ((∃ u, filter_by_global_id [c3d] [c3s] = some ([], u) ∧ u.length = [c3s].length) ∧
     (∃ u, filter_by_user_id searchYes [c3wd] [c3ws] = some ([], u, []) ∧
        u.length = [c3ws].length)) :=
  ⟨by decide, by decide, by decide, by decide,
   C7_second_run_idempotent searchYes [c3s] [c3d] [c3ws] [c3wd]
     (by decide) (by decide) (by decide) (by decide)⟩

/-! ### Existence-gate rejection -/

theorem survives_eq_of_userId_eq (search : Value → List Value) {f g : Feature}
    (h : getAttr f "userId" = getAttr g "userId") :
    survives search f = survives search g := by
  unfold survives
  rw [h]

/-- C5: a source worker/dispatcher record whose `userId` fails the
user-existence check is excluded from both output lists of
`filter_by_user_id` — so it never reaches the destination writer — and
the rejected `userId` is named by an emitted warning. -/
theorem C5_rejected_never_written (search : Value → List Value)
    (src dest : List Feature) {a u : List Feature} {w : List Value}
    (hU : filter_by_user_id search dest src = some (a, u, w)) :
    ∀ s ∈ src, ∀ uid, getAttr s "userId" = some uid → user_exists search uid = false →
      s ∉ a ∧ s ∉ u ∧ uid ∈ w := by
  obtain ⟨hA, hUu, hW⟩ := filter_by_user_id_char hU
  intro s hs uid hu hue
  have hsv : survives search s = false := by simp [survives, hu, hue]
  refine ⟨?_, ?_, ?_⟩
  · intro hmem
    rw [hA] at hmem
    have hall := (List.mem_filter.mp (List.mem_filter.mp hmem).1).2
    rw [hsv] at hall
    cases hall
  · intro hmem
    rw [hUu] at hmem
    obtain ⟨s', hs', hgs⟩ := List.mem_filterMap.mp hmem
    have hsv' : survives search s' = true := (List.mem_filter.mp hs').2
    have hscan := gMatch_eq_some_scan hgs
    obtain ⟨d, oid, hfm, ho, hset⟩ := scanDest_some_firstMatch hscan
    have huid : getAttr s "userId" = getAttr s' "userId" := by
      rw [hset]
      exact getAttr_setAttr_ne s' oid (by decide)
    have hcontra := survives_eq_of_userId_eq search huid
    rw [hsv, hsv'] at hcontra
    cases hcontra
  · rw [hW]
    exact List.mem_filterMap.mpr ⟨s, hs, by simp [rejectedUid, hu, hue]⟩

/-- The C5 witness source worker whose username the organization search
does not find. -/
def c5s : Feature := ⟨[("userId", .str "carol")]⟩

/-- Witness for C5: "carol" is not found, so her record reaches neither
output list and the warning list names "carol". -/
theorem C5_rejected_never_written_witness :
    filter_by_user_id searchNo [c3wd] [c5s] = some ([], [], [.str "carol"]) ∧
    (∀ s ∈ [c5s], ∀ uid, getAttr s "userId" = some uid →
       user_exists searchNo uid = false →
       s ∉ ([] : List Feature) ∧ s ∉ ([] : List Feature) ∧ uid ∈ [Value.str "carol"]) :=
  ⟨rfl, C5_rejected_never_written searchNo [c5s] [c3wd] rfl⟩

/-! ### Insert-only worker copy -/

/-- Acceptance test of `filter_workers`: the worker's `userId` exists in
the organization and is not already among the destination project's
worker `userId` values. -/
def acceptWorker (search : Value → List Value) (wfs : List Feature) (w : Feature) : Bool :=
  match getAttr w "userId" with
  | some uid =>
    user_exists search uid &&
      (match readUserIds wfs with
       | some destIds => !(decide (uid ∈ destIds))
       | none => false)
  | none => false

/-- The warning `filter_workers` logs for a rejected worker, if any. -/
def workerWarning (search : Value → List Value) (wfs : List Feature) (w : Feature) :
    Option WorkerWarning :=
  match getAttr w "userId" with
  | some uid =>
    if user_exists search uid then
      match readUserIds wfs with
      | some destIds => if uid ∈ destIds then some (.alreadyPresent uid) else none
      | none => none
    else some (.userNotFound uid)
  | none => none

theorem filter_workers_char {search : Value → List Value} {wfs ws : List Feature}
    {adds : List Feature} {warns : List WorkerWarning}
    (h : filter_workers search wfs ws = some (adds, warns)) :
    adds = ws.filter (acceptWorker search wfs) ∧
    warns = ws.filterMap (workerWarning search wfs) := by
  induction ws generalizing adds warns with
  | nil =>
    rw [filter_workers] at h
    simp only [Option.some.injEq, Prod.mk.injEq] at h
    obtain ⟨rfl, rfl⟩ := h
    simp
  | cons w rest ih =>
    rw [filter_workers] at h
    cases hu : getAttr w "userId" with
    | none => rw [hu, Option.none_bind] at h; cases h
    | some uid =>
      rw [hu, Option.some_bind] at h
      cases hue : user_exists search uid with
      | false =>
        rw [if_neg (by simp [hue])] at h
        cases hrec : filter_workers search wfs rest with
        | none => rw [hrec, Option.none_bind] at h; cases h
        | some p =>
          obtain ⟨adds0, warns0⟩ := p
          rw [hrec, Option.some_bind] at h
          obtain ⟨hA, hW⟩ := ih hrec
          simp only [Option.some.injEq, Prod.mk.injEq] at h
          obtain ⟨rfl, rfl⟩ := h
          have hacc : acceptWorker search wfs w = false := by
            simp [acceptWorker, hu, hue]
          have hwarn : workerWarning search wfs w = some (.userNotFound uid) := by
            simp [workerWarning, hu, hue]
          constructor
          · simp [List.filter_cons, hacc, hA]
          · simp [List.filterMap_cons, hwarn, hW]
      | true =>
        rw [if_pos hue] at h
        cases hids : readUserIds wfs with
        | none => rw [hids, Option.none_bind] at h; cases h
        | some destIds =>
          rw [hids, Option.some_bind] at h
          by_cases hmem : uid ∈ destIds
          · rw [if_pos hmem] at h
            cases hrec : filter_workers search wfs rest with
            | none => rw [hrec, Option.none_bind] at h; cases h
            | some p =>
              obtain ⟨adds0, warns0⟩ := p
              rw [hrec, Option.some_bind] at h
              obtain ⟨hA, hW⟩ := ih hrec
              simp only [Option.some.injEq, Prod.mk.injEq] at h
              obtain ⟨rfl, rfl⟩ := h
              have hacc : acceptWorker search wfs w = false := by
                simp [acceptWorker, hu, hue, hids, hmem]
              have hwarn : workerWarning search wfs w = some (.alreadyPresent uid) := by
                simp [workerWarning, hu, hue, hids, hmem]
              constructor
              · simp [List.filter_cons, hacc, hA]
              · simp [List.filterMap_cons, hwarn, hW]
          · rw [if_neg hmem] at h
            cases hrec : filter_workers search wfs rest with
            | none => rw [hrec, Option.none_bind] at h; cases h
            | some p =>
              obtain ⟨adds0, warns0⟩ := p
              rw [hrec, Option.some_bind] at h
              obtain ⟨hA, hW⟩ := ih hrec
              simp only [Option.some.injEq, Prod.mk.injEq] at h
              obtain ⟨rfl, rfl⟩ := h
              have hacc : acceptWorker search wfs w = true := by
                simp [acceptWorker, hu, hue, hids, hmem]
              have hwarn : workerWarning search wfs w = none := by
                simp [workerWarning, hu, hue, hids, hmem]
              constructor
              · simp [List.filter_cons, hacc, hA]
              · simp [List.filterMap_cons, hwarn, hW]

/-- C9: in the insert-only worker copy, `filter_workers` drops a worker
whose `userId` is already among the destination project's workers (with
an `alreadyPresent` warning) and a worker whose `userId` fails the
existence check (with a `userNotFound` warning), while still adding
every worker that passes both tests — each rejection is per record and
the run continues. -/
theorem C9_filter_workers_drops (search : Value → List Value)
    (wfs ws : List Feature) {adds : List Feature} {warns : List WorkerWarning}
    (h : filter_workers search wfs ws = some (adds, warns)) :
    ∀ w ∈ ws, ∀ uid, getAttr w "userId" = some uid →
      (user_exists search uid = false →
         w ∉ adds ∧ WorkerWarning.userNotFound uid ∈ warns) ∧
      (∀ destIds, readUserIds wfs = some destIds → user_exists search uid = true →
         uid ∈ destIds → w ∉ adds ∧ WorkerWarning.alreadyPresent uid ∈ warns) ∧
      (∀ destIds, readUserIds wfs = some destIds → user_exists search uid = true →
         uid ∉ destIds → w ∈ adds) := by
  obtain ⟨hA, hW⟩ := filter_workers_char h
  intro w hw uid hu
  refine ⟨fun hue => ⟨?_, ?_⟩, fun destIds hids hue hmem => ⟨?_, ?_⟩,
    fun destIds hids hue hmem => ?_⟩
  · intro hmem2
    rw [hA] at hmem2
    have hacc := (List.mem_filter.mp hmem2).2
    simp [acceptWorker, hu, hue] at hacc
  · rw [hW]
    exact List.mem_filterMap.mpr ⟨w, hw, by simp [workerWarning, hu, hue]⟩
  · intro hmem2
    rw [hA] at hmem2
    have hacc := (List.mem_filter.mp hmem2).2
    simp [acceptWorker, hu, hue, hids, hmem] at hacc
  · rw [hW]
    exact List.mem_filterMap.mpr ⟨w, hw, by simp [workerWarning, hu, hue, hids, hmem]⟩
  · rw [hA]
    refine List.mem_filter.mpr ⟨hw, ?_⟩
    simp [acceptWorker, hu, hue, hids, hmem]

/-- The C9 witness workers: "bob" is already in the destination project,
"carol" does not exist in the organization, "zed" is new and valid. -/
def c9src : List Feature :=
  [⟨[("userId", .str "bob")]⟩, ⟨[("userId", .str "carol")]⟩, ⟨[("userId", .str "zed")]⟩]

/-- A search for the C9 witness that finds every username except
"carol". -/
def searchNotCarol : Value → List Value :=
  fun v => if v = .str "carol" then [] else [v]

/-- Witness for C9: "bob" and "carol" are dropped with their warnings,
"zed" is added, and the run covers all three records. -/
theorem C9_filter_workers_drops_witness :
    filter_workers searchNotCarol [c3wd] c9src =
      some ([⟨[("userId", .str "zed")]⟩],
            [.alreadyPresent (.str "bob"), .userNotFound (.str "carol")]) ∧
    (∀ w ∈ c9src, ∀ uid, getAttr w "userId" = some uid →
      (user_exists searchNotCarol uid = false →
         w ∉ [(⟨[("userId", .str "zed")]⟩ : Feature)] ∧
         WorkerWarning.userNotFound uid ∈
           [WorkerWarning.alreadyPresent (.str "bob"), WorkerWarning.userNotFound (.str "carol")]) ∧
      (∀ destIds, readUserIds [c3wd] = some destIds →
         user_exists searchNotCarol uid = true → uid ∈ destIds →
         w ∉ [(⟨[("userId", .str "zed")]⟩ : Feature)] ∧
         WorkerWarning.alreadyPresent uid ∈
           [WorkerWarning.alreadyPresent (.str "bob"), WorkerWarning.userNotFound (.str "carol")]) ∧
      (∀ destIds, readUserIds [c3wd] = some destIds →
         user_exists searchNotCarol uid = true → uid ∉ destIds →
         w ∈ [(⟨[("userId", .str "zed")]⟩ : Feature)])) :=
  ⟨rfl, C9_filter_workers_drops searchNotCarol [c3wd] c9src rfl⟩

/-! ### Identity-map build lemmas -/

theorem lastUserIdMatch_none_iff {sw : Feature} {dest : List Feature} :
    lastUserIdMatch sw dest = none ↔
    ∀ dw ∈ dest, getAttr dw "userId" ≠ getAttr sw "userId" := by
  induction dest with
  | nil => simp [lastUserIdMatch]
  | cons x rest ih =>
    rw [lastUserIdMatch]
    cases hl : lastUserIdMatch sw rest with
    | some y =>
      simp only []
      constructor
      · intro hc; cases hc
      · intro hall
        have : ∀ dw ∈ rest, getAttr dw "userId" ≠ getAttr sw "userId" :=
          fun dw hdw => hall dw (List.mem_cons_of_mem x hdw)
        rw [ih.mpr this] at hl
        cases hl
    | none =>
      simp only []
      by_cases hx : getAttr x "userId" = getAttr sw "userId"
      · rw [if_pos hx]
        constructor
        · intro hc; cases hc
        · intro hall; exact absurd hx (hall x (List.mem_cons_self x rest))
      · rw [if_neg hx]
        constructor
        · intro _ dw hdw
          rcases List.mem_cons.mp hdw with rfl | hdw2
          · exact hx
          · exact ih.mp hl dw hdw2
        · intro _; rfl

theorem lastUserIdMatch_mem {sw dw : Feature} {dest : List Feature}
    (h : lastUserIdMatch sw dest = some dw) :
    dw ∈ dest ∧ getAttr dw "userId" = getAttr sw "userId" := by
  induction dest with
  | nil => cases h
  | cons x rest ih =>
    rw [lastUserIdMatch] at h
    cases hl : lastUserIdMatch sw rest with
    | some y =>
      rw [hl] at h
      cases h
      obtain ⟨hmem, hkey⟩ := ih hl
      exact ⟨List.mem_cons_of_mem x hmem, hkey⟩
    | none =>
      rw [hl] at h
      by_cases hx : getAttr x "userId" = getAttr sw "userId"
      · rw [if_pos hx] at h
        rw [Option.some.injEq] at h
        subst h
        exact ⟨List.mem_cons_self x rest, hx⟩
      · rw [if_neg hx] at h
        cases h

theorem lastUserIdMatch_cons_some {sw x dw : Feature} {rest : List Feature}
    (hl : lastUserIdMatch sw rest = some x) :
    lastUserIdMatch sw (dw :: rest) = some x := by
  rw [lastUserIdMatch, hl]

theorem lastUserIdMatch_cons_none_pos {sw dw : Feature} {rest : List Feature}
    (hl : lastUserIdMatch sw rest = none)
    (h : getAttr dw "userId" = getAttr sw "userId") :
    lastUserIdMatch sw (dw :: rest) = some dw := by
  rw [lastUserIdMatch, hl]
  exact if_pos h

theorem lastUserIdMatch_cons_none_neg {sw dw : Feature} {rest : List Feature}
    (hl : lastUserIdMatch sw rest = none)
    (h : ¬ getAttr dw "userId" = getAttr sw "userId") :
    lastUserIdMatch sw (dw :: rest) = none := by
  rw [lastUserIdMatch, hl]
  exact if_neg h

theorem lastUserIdMatch_unique {sw dw : Feature} {dest : List Feature}
    (hmem : dw ∈ dest) (hkey : getAttr dw "userId" = getAttr sw "userId")
    (huniq : ∀ dw' ∈ dest, getAttr dw' "userId" = getAttr sw "userId" → dw' = dw) :
    lastUserIdMatch sw dest = some dw := by
  induction dest with
  | nil => cases hmem
  | cons x rest ih =>
    by_cases hrest : dw ∈ rest
    · have hlast : lastUserIdMatch sw rest = some dw :=
        ih hrest (fun dw' hdw' h' => huniq dw' (List.mem_cons_of_mem x hdw') h')
      exact lastUserIdMatch_cons_some hlast
    · have hx : x = dw := by
        rcases List.mem_cons.mp hmem with h1 | h2
        · exact h1.symm
        · exact absurd h2 hrest
      subst hx
      have hnone : lastUserIdMatch sw rest = none := by
        rw [lastUserIdMatch_none_iff]
        intro dw' hdw' hkey'
        exact hrest ((huniq dw' (List.mem_cons_of_mem x hdw') hkey') ▸ hdw')
      exact lastUserIdMatch_cons_none_pos hnone hkey

theorem buildMappingInner_get_ne {sw : Feature} {m0 m1 : List (Value × Value)}
    {dest : List Feature} {w : Value}
    (h : buildMappingInner sw m0 dest = some m1)
    (hne : getAttr sw "OBJECTID" ≠ some w) :
    alistGet m1 w = alistGet m0 w := by
  induction dest generalizing m0 with
  | nil =>
    rw [buildMappingInner] at h
    cases h
    rfl
  | cons dw rest ih =>
    rw [buildMappingInner] at h
    cases hdu : getAttr dw "userId" with
    | none => rw [hdu, Option.none_bind] at h; cases h
    | some du =>
      rw [hdu, Option.some_bind] at h
      cases hsu : getAttr sw "userId" with
      | none => rw [hsu, Option.none_bind] at h; cases h
      | some su =>
        rw [hsu, Option.some_bind] at h
        by_cases he : du = su
        · rw [if_pos he] at h
          cases hso : getAttr sw "OBJECTID" with
          | none => rw [hso, Option.none_bind] at h; cases h
          | some sOid =>
            rw [hso, Option.some_bind] at h
            cases hdo : getAttr dw "OBJECTID" with
            | none => rw [hdo, Option.none_bind] at h; cases h
            | some dOid =>
              rw [hdo, Option.some_bind] at h
              have hsne : w ≠ sOid := by
                intro hc
                exact hne (hc ▸ hso)
              rw [ih h, alistGet_alistSet_ne m0 dOid hsne]
        · rw [if_neg he] at h
          exact ih h

theorem buildMappingInner_get_self_none {sw : Feature} {m0 m1 : List (Value × Value)}
    {dest : List Feature} {w : Value}
    (h : buildMappingInner sw m0 dest = some m1)
    (hl : lastUserIdMatch sw dest = none) :
    alistGet m1 w = alistGet m0 w := by
  induction dest generalizing m0 with
  | nil =>
    rw [buildMappingInner] at h
    cases h
    rfl
  | cons dw rest ih =>
    have hnm : getAttr dw "userId" ≠ getAttr sw "userId" :=
      lastUserIdMatch_none_iff.mp hl dw (List.mem_cons_self dw rest)
    have hlrest : lastUserIdMatch sw rest = none := by
      rw [lastUserIdMatch_none_iff]
      exact fun d hd => lastUserIdMatch_none_iff.mp hl d (List.mem_cons_of_mem dw hd)
    rw [buildMappingInner] at h
    cases hdu : getAttr dw "userId" with
    | none => rw [hdu, Option.none_bind] at h; cases h
    | some du =>
      rw [hdu, Option.some_bind] at h
      cases hsu : getAttr sw "userId" with
      | none => rw [hsu, Option.none_bind] at h; cases h
      | some su =>
        rw [hsu, Option.some_bind] at h
        have he : ¬ du = su := by
          intro hc
          exact hnm (by rw [hdu, hsu, hc])
        rw [if_neg he] at h
        exact ih h hlrest

theorem buildMappingInner_get_self_some {sw dw0 : Feature} {m0 m1 : List (Value × Value)}
    {dest : List Feature} {w : Value}
    (h : buildMappingInner sw m0 dest = some m1)
    (hso : getAttr sw "OBJECTID" = some w)
    (hl : lastUserIdMatch sw dest = some dw0) :
    alistGet m1 w = getAttr dw0 "OBJECTID" := by
  induction dest generalizing m0 with
  | nil => cases hl
  | cons dw rest ih =>
    rw [buildMappingInner] at h
    cases hdu : getAttr dw "userId" with
    | none => rw [hdu, Option.none_bind] at h; cases h
    | some du =>
      rw [hdu, Option.some_bind] at h
      cases hsu : getAttr sw "userId" with
      | none => rw [hsu, Option.none_bind] at h; cases h
      | some su =>
        rw [hsu, Option.some_bind] at h
        cases hlrest : lastUserIdMatch sw rest with
        | some x =>
          have hx : x = dw0 := by
            have hcons : lastUserIdMatch sw (dw :: rest) = some x :=
              lastUserIdMatch_cons_some hlrest
            rw [hcons] at hl
            exact Option.some.inj hl
          subst hx
          by_cases he : du = su
          · rw [if_pos he] at h
            rw [hso, Option.some_bind] at h
            cases hdo : getAttr dw "OBJECTID" with
            | none => rw [hdo, Option.none_bind] at h; cases h
            | some dOid =>
              rw [hdo, Option.some_bind] at h
              exact ih h hlrest
          · rw [if_neg he] at h
            exact ih h hlrest
        | none =>
          by_cases hnm : getAttr dw "userId" = getAttr sw "userId"
          · have hdw : dw = dw0 := by
              have := lastUserIdMatch_cons_none_pos hlrest hnm
              rw [this] at hl
              exact Option.some.inj hl
            subst hdw
            have he : du = su := by
              rw [hdu, hsu] at hnm
              exact Option.some.inj hnm
            rw [if_pos he] at h
            rw [hso, Option.some_bind] at h
            cases hdo : getAttr dw "OBJECTID" with
            | none => rw [hdo, Option.none_bind] at h; cases h
            | some dOid =>
              rw [hdo, Option.some_bind] at h
              rw [buildMappingInner_get_self_none h hlrest, alistGet_alistSet_same]
          · have := lastUserIdMatch_cons_none_neg hlrest hnm
            rw [this] at hl
            cases hl

theorem buildMapping_get_none {dest : List Feature} {m0 m : List (Value × Value)}
    {srcs : List Feature} {sw : Feature} {w : Value}
    (h : buildMapping dest m0 srcs = some m)
    (huniq : ∀ sw' ∈ srcs, getAttr sw' "OBJECTID" = some w → sw' = sw)
    (hl : lastUserIdMatch sw dest = none) :
    alistGet m w = alistGet m0 w := by
  induction srcs generalizing m0 with
  | nil => rw [buildMapping] at h; cases h; rfl
  | cons h0 rest ih =>
    rw [buildMapping] at h
    cases hbi : buildMappingInner h0 m0 dest with
    | none => rw [hbi, Option.none_bind] at h; cases h
    | some m2 =>
      rw [hbi, Option.some_bind] at h
      have hstep : alistGet m2 w = alistGet m0 w := by
        by_cases hh : getAttr h0 "OBJECTID" = some w
        · have hh0 := huniq h0 (List.mem_cons_self h0 rest) hh
          subst hh0
          exact buildMappingInner_get_self_none hbi hl
        · exact buildMappingInner_get_ne hbi hh
      rw [ih h (fun s hs hw => huniq s (List.mem_cons_of_mem h0 hs) hw), hstep]

theorem buildMapping_get_untouched {dest : List Feature} {m0 m : List (Value × Value)}
    {srcs : List Feature} {w : Value}
    (h : buildMapping dest m0 srcs = some m)
    (hall : ∀ sw' ∈ srcs, getAttr sw' "OBJECTID" ≠ some w) :
    alistGet m w = alistGet m0 w := by
  induction srcs generalizing m0 with
  | nil => rw [buildMapping] at h; cases h; rfl
  | cons h0 rest ih =>
    rw [buildMapping] at h
    cases hbi : buildMappingInner h0 m0 dest with
    | none => rw [hbi, Option.none_bind] at h; cases h
    | some m2 =>
      rw [hbi, Option.some_bind] at h
      rw [ih h (fun s hs => hall s (List.mem_cons_of_mem h0 hs)),
        buildMappingInner_get_ne hbi (hall h0 (List.mem_cons_self h0 rest))]

theorem buildMapping_get_some {dest : List Feature} {m0 m : List (Value × Value)}
    {srcs : List Feature} {sw dw0 : Feature} {w : Value}
    (h : buildMapping dest m0 srcs = some m)
    (hso : getAttr sw "OBJECTID" = some w)
    (hmem : sw ∈ srcs)
    (huniq : ∀ sw' ∈ srcs, getAttr sw' "OBJECTID" = some w → sw' = sw)
    (hl : lastUserIdMatch sw dest = some dw0) :
    alistGet m w = getAttr dw0 "OBJECTID" := by
  induction srcs generalizing m0 with
  | nil => cases hmem
  | cons h0 rest ih =>
    rw [buildMapping] at h
    cases hbi : buildMappingInner h0 m0 dest with
    | none => rw [hbi, Option.none_bind] at h; cases h
    | some m2 =>
      rw [hbi, Option.some_bind] at h
      by_cases hrest : sw ∈ rest
      · exact ih h hrest (fun s hs hw => huniq s (List.mem_cons_of_mem h0 hs) hw)
      · have hh0 : h0 = sw := by
          rcases List.mem_cons.mp hmem with h1 | h2
          · exact h1.symm
          · exact absurd h2 hrest
        subst hh0
        have hstep : alistGet m2 w = getAttr dw0 "OBJECTID" :=
          buildMappingInner_get_self_some hbi hso hl
        have hnall : ∀ sw' ∈ rest, getAttr sw' "OBJECTID" ≠ some w := by
          intro s hs hw
          exact hrest ((huniq s (List.mem_cons_of_mem h0 hs) hw) ▸ hs)
        rw [buildMapping_get_untouched h hnall, hstep]

/-- C10: when building the identity map in `copy_relationship`, the
inner scan over destination records has no early exit, so the entry
recorded for a source record's `OBJECTID` is the OBJECTID of the LAST
destination record sharing its `userId` (no entry at all when none
matches); for a deduplicated destination the entry is the unique
match's OBJECTID. -/
theorem C10_identity_map_last_match_wins (srcWs destWs : List Feature)
    {m : List (Value × Value)}
    (hbm : buildMapping destWs [] srcWs = some m)
    (sw : Feature) (hsw : sw ∈ srcWs) (w : Value)
    (hswOid : getAttr sw "OBJECTID" = some w)
    (huniq : ∀ sw' ∈ srcWs, getAttr sw' "OBJECTID" = some w → sw' = sw) :
    (lastUserIdMatch sw destWs = none → alistGet m w = none) ∧
    (∀ dw, lastUserIdMatch sw destWs = some dw →
       dw ∈ destWs ∧ getAttr dw "userId" = getAttr sw "userId" ∧
       alistGet m w = getAttr dw "OBJECTID") ∧
    (∀ dw ∈ destWs, getAttr dw "userId" = getAttr sw "userId" →
       (∀ dw' ∈ destWs, getAttr dw' "userId" = getAttr sw "userId" → dw' = dw) →
       alistGet m w = getAttr dw "OBJECTID") := by
  refine ⟨fun hl => ?_, fun dw hl => ?_, fun dw hdw hkey huniq2 => ?_⟩
  · rw [buildMapping_get_none hbm huniq hl]
    rfl
  · obtain ⟨hmem2, hkey2⟩ := lastUserIdMatch_mem hl
    exact ⟨hmem2, hkey2, buildMapping_get_some hbm hswOid hsw huniq hl⟩
  · exact buildMapping_get_some hbm hswOid hsw huniq (lastUserIdMatch_unique hdw hkey huniq2)

/-- Witness for C10: destination workers with `OBJECTID` 5 and 9 both
carry `userId` "bob"; the identity map records 9 — the LAST match — for
the source worker's `OBJECTID` 2. -/
theorem C10_identity_map_last_match_wins_witness :
    buildMapping [c8w1, c8w2] [] [c3ws] = some [(Value.int 2, Value.int 9)] ∧
    c3ws ∈ [c3ws] ∧ getAttr c3ws "OBJECTID" = some (Value.int 2) ∧
    (∀ sw' ∈ [c3ws], getAttr sw' "OBJECTID" = some (Value.int 2) → sw' = c3ws) ∧
    ((lastUserIdMatch c3ws [c8w1, c8w2] = none →
        alistGet [(Value.int 2, Value.int 9)] (Value.int 2) = none) ∧
     (∀ dw, lastUserIdMatch c3ws [c8w1, c8w2] = some dw →
        dw ∈ [c8w1, c8w2] ∧ getAttr dw "userId" = getAttr c3ws "userId" ∧
        alistGet [(Value.int 2, Value.int 9)] (Value.int 2) = getAttr dw "OBJECTID") ∧
     (∀ dw ∈ [c8w1, c8w2], getAttr dw "userId" = getAttr c3ws "userId" →
        (∀ dw' ∈ [c8w1, c8w2], getAttr dw' "userId" = getAttr c3ws "userId" → dw' = dw) →
        alistGet [(Value.int 2, Value.int 9)] (Value.int 2) = getAttr dw "OBJECTID")) :=
  ⟨rfl, by decide, by decide, by decide,
   C10_identity_map_last_match_wins [c3ws] [c8w1, c8w2] rfl c3ws (by decide)
     (Value.int 2) (by decide) (by decide)⟩

/-! ### Remap-pass lemmas -/

/-- Pointwise effect of one `remapField` pass on one assignment: the
foreign-key attribute is read; a truthy value is replaced through the
identity map, a falsy one (Python `None`, `0`, `""`, `False`) leaves
the record untouched. -/
def remapRel (field : String) (m : List (Value × Value)) (a a2 : Feature) : Prop :=
  ∃ v, getAttr a field = some v ∧
    ((v.truthy = true ∧ ∃ mv, alistGet m v = some mv ∧ a2 = setAttr a field mv) ∨
     (v.truthy = false ∧ a2 = a))

theorem remapField_forall2 {field : String} {m : List (Value × Value)}
    {l l2 : List Feature} (h : remapField field m l = some l2) :
    List.Forall₂ (remapRel field m) l l2 := by
  induction l generalizing l2 with
  | nil =>
    rw [remapField] at h
    cases h
    exact List.Forall₂.nil
  | cons a rest ih =>
    rw [remapField] at h
    cases hv : getAttr a field with
    | none => rw [hv, Option.none_bind] at h; cases h
    | some v =>
      rw [hv, Option.some_bind] at h
      cases htr : v.truthy with
      | true =>
        rw [if_pos htr] at h
        cases hmv : alistGet m v with
        | none => rw [hmv, Option.none_bind] at h; cases h
        | some mv =>
          rw [hmv, Option.some_bind] at h
          cases hrec : remapField field m rest with
          | none => rw [hrec, Option.none_bind] at h; cases h
          | some rest2 =>
            rw [hrec, Option.some_bind, Option.some.injEq] at h
            subst h
            exact List.Forall₂.cons ⟨v, hv, Or.inl ⟨htr, mv, hmv, rfl⟩⟩ (ih hrec)
      | false =>
        rw [if_neg (by simp [htr])] at h
        cases hrec : remapField field m rest with
        | none => rw [hrec, Option.none_bind] at h; cases h
        | some rest2 =>
          rw [hrec, Option.some_bind, Option.some.injEq] at h
          subst h
          exact List.Forall₂.cons ⟨v, hv, Or.inr ⟨htr, rfl⟩⟩ (ih hrec)

theorem remapField_isSome {field : String} {m : List (Value × Value)} {l : List Feature}
    (h : ∀ a ∈ l, ∃ v, getAttr a field = some v ∧
      (v.truthy = true → (alistGet m v).isSome)) :
    (remapField field m l).isSome := by
  induction l with
  | nil => rw [remapField]; rfl
  | cons a rest ih =>
    obtain ⟨v, hv, himp⟩ := h a (List.mem_cons_self a rest)
    have hrest := ih (fun a2 ha2 => h a2 (List.mem_cons_of_mem a ha2))
    obtain ⟨rest2, hrec⟩ := Option.isSome_iff_exists.mp hrest
    rw [remapField, hv, Option.some_bind]
    by_cases htr : v.truthy = true
    · obtain ⟨mv, hmv⟩ := Option.isSome_iff_exists.mp (himp htr)
      rw [if_pos htr, hmv, Option.some_bind, hrec, Option.some_bind]
      rfl
    · rw [if_neg htr, hrec, Option.some_bind]
      rfl

theorem remapField_fails {field : String} {m : List (Value × Value)} {l : List Feature}
    {a : Feature} {v : Value}
    (ha : a ∈ l) (hv : getAttr a field = some v) (htr : v.truthy = true)
    (hmiss : alistGet m v = none) : remapField field m l = none := by
  induction l with
  | nil => cases ha
  | cons x rest ih =>
    rcases List.mem_cons.mp ha with rfl | ha2
    · rw [remapField, hv, Option.some_bind, if_pos htr, hmiss, Option.none_bind]
    · rw [remapField]
      cases hx : getAttr x field with
      | none => rw [Option.none_bind]
      | some vx =>
        rw [Option.some_bind]
        by_cases hvt : vx.truthy = true
        · rw [if_pos hvt]
          cases hmx : alistGet m vx with
          | none => rw [Option.none_bind]
          | some mvx => rw [Option.some_bind, ih ha2, Option.none_bind]
        · rw [if_neg hvt, ih ha2, Option.none_bind]

theorem forall2_mem_right {α β : Type} {R : α → β → Prop} {l : List α} {l2 : List β}
    (h : List.Forall₂ R l l2) : ∀ b ∈ l2, ∃ a ∈ l, R a b := by
  induction h with
  | nil => intro b hb; cases hb
  | cons hR _ ih =>
    intro b hb
    rcases List.mem_cons.mp hb with rfl | hb2
    · exact ⟨_, List.mem_cons_self _ _, hR⟩
    · obtain ⟨a, ha, hab⟩ := ih b hb2
      exact ⟨a, List.mem_cons_of_mem _ ha, hab⟩

/-- A remap pass of one field leaves every other attribute unchanged. -/
theorem remapRel_preserves_other {field other : String} {m : List (Value × Value)}
    {a a2 : Feature} (hne : other ≠ field) (h : remapRel field m a a2) :
    getAttr a2 other = getAttr a other := by
  obtain ⟨v, _, hcase⟩ := h
  rcases hcase with ⟨_, mv, _, rfl⟩ | ⟨_, rfl⟩
  · exact getAttr_setAttr_ne a mv hne
  · rfl

theorem copy_relationship_decomp {sW dW sD dD asg out : List Feature}
    (h : copy_relationship sW dW sD dD asg = some out) :
    ∃ wm a1 dm, buildMapping dW [] sW = some wm ∧
      remapField "workerId" wm asg = some a1 ∧
      buildMapping dD [] sD = some dm ∧
      remapField "dispatcherId" dm a1 = some out := by
  rw [copy_relationship] at h
  cases hwm : buildMapping dW [] sW with
  | none => rw [hwm, Option.none_bind] at h; cases h
  | some wm =>
    rw [hwm, Option.some_bind] at h
    cases ha1 : remapField "workerId" wm asg with
    | none => rw [ha1, Option.none_bind] at h; cases h
    | some a1 =>
      rw [ha1, Option.some_bind] at h
      cases hdm : buildMapping dD [] sD with
      | none => rw [hdm, Option.none_bind] at h; cases h
      | some dm =>
        rw [hdm, Option.some_bind] at h
        exact ⟨wm, a1, dm, rfl, ha1, rfl, h⟩

theorem remapRel_null_id {field : String} {m : List (Value × Value)} {a a2 : Feature}
    (h : remapRel field m a a2) (hnull : getAttr a field = some Value.null) :
    a2 = a := by
  obtain ⟨v, hv, hcase⟩ := h
  rw [hnull, Option.some.injEq] at hv
  rcases hcase with ⟨htr, _⟩ | ⟨_, h2⟩
  · rw [← hv] at htr
    cases htr
  · exact h2

/-- C6: an assignment whose `workerId` (or `dispatcherId`) attribute is
null before remapping keeps that attribute null in the output of
`copy_relationship`: no identity-map lookup is attempted for a null
foreign key, so the record passes through with the null preserved. -/
theorem C6_null_foreign_keys_unchanged (sW dW sD dD asg : List Feature) {out : List Feature}
    (h : copy_relationship sW dW sD dD asg = some out) :
    out.length = asg.length ∧
    ∀ i (hi : i < asg.length) (hi2 : i < out.length),
      (getAttr (asg.get ⟨i, hi⟩) "workerId" = some Value.null →
         getAttr (out.get ⟨i, hi2⟩) "workerId" = some Value.null) ∧
      (getAttr (asg.get ⟨i, hi⟩) "dispatcherId" = some Value.null →
         getAttr (out.get ⟨i, hi2⟩) "dispatcherId" = some Value.null) := by
  obtain ⟨wm, a1, dm, hwm, ha1, hdm, hout⟩ := copy_relationship_decomp h
  have hf1 := remapField_forall2 ha1
  have hf2 := remapField_forall2 hout
  have hlen1 := hf1.length_eq
  have hlen2 := hf2.length_eq
  refine ⟨by omega, ?_⟩
  intro i hi hi2
  have hia : i < a1.length := by omega
  have hr1 := (List.forall₂_iff_get.mp hf1).2 i hi hia
  have hr2 := (List.forall₂_iff_get.mp hf2).2 i hia hi2
  constructor
  · intro hnull
    have hstep1 : (a1.get ⟨i, hia⟩) = asg.get ⟨i, hi⟩ := remapRel_null_id hr1 hnull
    have hstep2 := remapRel_preserves_other (show "workerId" ≠ "dispatcherId" by decide) hr2
    rw [hstep2, hstep1]
    exact hnull
  · intro hnull
    have hstep1 := remapRel_preserves_other (show "dispatcherId" ≠ "workerId" by decide) hr1
    rw [hnull] at hstep1
    have hstep2 : (out.get ⟨i, hi2⟩) = a1.get ⟨i, hia⟩ := remapRel_null_id hr2 hstep1
    rw [hstep2, hstep1]

/-- The C6 witness assignment: both foreign keys null. -/
def c6a : Feature := ⟨[("workerId", Value.null), ("dispatcherId", Value.null)]⟩

/-- Witness for C6: both null foreign keys survive the remap unchanged. -/
theorem C6_null_foreign_keys_unchanged_witness :
    copy_relationship [c3ws] [c3wd] [] [] [c6a] = some [c6a] ∧
    (([c6a] : List Feature).length = ([c6a] : List Feature).length ∧
     ∀ i (hi : i < ([c6a] : List Feature).length) (hi2 : i < ([c6a] : List Feature).length),
       (getAttr (([c6a] : List Feature).get ⟨i, hi⟩) "workerId" = some Value.null →
          getAttr (([c6a] : List Feature).get ⟨i, hi2⟩) "workerId" = some Value.null) ∧
       (getAttr (([c6a] : List Feature).get ⟨i, hi⟩) "dispatcherId" = some Value.null →
          getAttr (([c6a] : List Feature).get ⟨i, hi2⟩) "dispatcherId" = some Value.null)) :=
  ⟨rfl, C6_null_foreign_keys_unchanged [c3ws] [c3wd] [] [] [c6a] rfl⟩

/-! ### Foreign-key remap correctness -/

/-- The counterexample assignment for C2/C4: `workerId` is the integer
0 — non-null, but falsy under the Python truthiness test the code
uses. -/
def c2a : Feature := ⟨[("workerId", Value.int 0), ("dispatcherId", Value.null)]⟩

/-- The counterexample source worker whose `OBJECTID` is 0. -/
def c2sw : Feature := ⟨[("userId", Value.str "ann"), ("OBJECTID", Value.int 0)]⟩

/-- The counterexample destination worker with surrogate key 9. -/
def c2dw : Feature := ⟨[("userId", Value.str "ann"), ("OBJECTID", Value.int 9)]⟩

/-- Counterexample to C2 as stated: the assignment's `workerId` 0 is
non-null, the referenced source worker (OBJECTID 0) matches the
destination worker with surrogate key 9, yet `copy_relationship` leaves
`workerId` at 0 instead of 9, because the code guards the remap with
Python truthiness (`if attributes["workerId"]:`), not a null test. -/
theorem C2_counterexample :
    getAttr c2a "workerId" = some (Value.int 0) ∧
    Value.int 0 ≠ Value.null ∧
    getAttr c2sw "OBJECTID" = some (Value.int 0) ∧
    getAttr c2dw "userId" = getAttr c2sw "userId" ∧
    getAttr c2dw "OBJECTID" = some (Value.int 9) ∧
    copy_relationship [c2sw] [c2dw] [] [] [c2a] = some [c2a] ∧
    ¬ getAttr c2a "workerId" = some (Value.int 9) := by
  decide

/-- C2 (amended): for every assignment whose `workerId` is TRUTHY
(non-null and nonzero — the code tests Python truthiness, not null),
after `copy_relationship` its `workerId` equals the destination
surrogate key of the destination worker whose `userId` equals the
`userId` of the source worker whose `OBJECTID` was the assignment's
original `workerId`, provided that source worker and that destination
worker are the unique such records. -/
theorem C2_workerId_remapped (sW dW sD dD asg : List Feature) {out : List Feature}
    (h : copy_relationship sW dW sD dD asg = some out)
    (sw dw : Feature) (w : Value)
    (hsw : sw ∈ sW) (hswOid : getAttr sw "OBJECTID" = some w)
    (huniq : ∀ sw' ∈ sW, getAttr sw' "OBJECTID" = some w → sw' = sw)
    (hdw : dw ∈ dW) (hdwU : getAttr dw "userId" = getAttr sw "userId")
    (hduniq : ∀ dw' ∈ dW, getAttr dw' "userId" = getAttr sw "userId" → dw' = dw) :
    out.length = asg.length ∧
    ∀ i (hi : i < asg.length) (hi2 : i < out.length),
      getAttr (asg.get ⟨i, hi⟩) "workerId" = some w → w.truthy = true →
      ∃ doid, getAttr dw "OBJECTID" = some doid ∧
        getAttr (out.get ⟨i, hi2⟩) "workerId" = some doid := by
  obtain ⟨wm, a1, dm, hwm, ha1, hdm, hout⟩ := copy_relationship_decomp h
  have hlast : lastUserIdMatch sw dW = some dw := lastUserIdMatch_unique hdw hdwU hduniq
  have hget : alistGet wm w = getAttr dw "OBJECTID" :=
    buildMapping_get_some hwm hswOid hsw huniq hlast
  have hf1 := remapField_forall2 ha1
  have hf2 := remapField_forall2 hout
  have hlen1 := hf1.length_eq
  have hlen2 := hf2.length_eq
  refine ⟨by omega, ?_⟩
  intro i hi hi2 hwid htr
  have hia : i < a1.length := by omega
  have hr1 := (List.forall₂_iff_get.mp hf1).2 i hi hia
  have hr2 := (List.forall₂_iff_get.mp hf2).2 i hia hi2
  obtain ⟨v, hv, hcase⟩ := hr1
  rw [hwid, Option.some.injEq] at hv
  subst hv
  rcases hcase with ⟨_, mv, hmv, hset⟩ | ⟨hfal, _⟩
  · rw [hget] at hmv
    refine ⟨mv, hmv, ?_⟩
    have hw1 : getAttr (a1.get ⟨i, hia⟩) "workerId" = some mv := by
      rw [hset]
      exact getAttr_setAttr_same _ _ _
    have hw2 := remapRel_preserves_other (show "workerId" ≠ "dispatcherId" by decide) hr2
    rw [hw2, hw1]
  · rw [htr] at hfal
    cases hfal

/-- The C2 witness assignment referencing source worker OBJECTID 2. -/
def c2wa : Feature := ⟨[("workerId", Value.int 2), ("dispatcherId", Value.null)]⟩

/-- The C2 witness output assignment: `workerId` remapped to 9. -/
def c2wout : Feature := ⟨[("workerId", Value.int 9), ("dispatcherId", Value.null)]⟩

/-- Witness for the amended C2: `workerId` 2 (truthy) is remapped to
the destination worker's surrogate key 9. -/
theorem C2_workerId_remapped_witness :
    copy_relationship [c3ws] [c3wd] [] [] [c2wa] = some [c2wout] ∧
    c3ws ∈ [c3ws] ∧ getAttr c3ws "OBJECTID" = some (Value.int 2) ∧
    (∀ sw' ∈ [c3ws], getAttr sw' "OBJECTID" = some (Value.int 2) → sw' = c3ws) ∧
    c3wd ∈ [c3wd] ∧ getAttr c3wd "userId" = getAttr c3ws "userId" ∧
    (∀ dw' ∈ [c3wd], getAttr dw' "userId" = getAttr c3ws "userId" → dw' = c3wd) ∧
    (([c2wout] : List Feature).length = ([c2wa] : List Feature).length ∧
     ∀ i (hi : i < ([c2wa] : List Feature).length) (hi2 : i < ([c2wout] : List Feature).length),
       getAttr (([c2wa] : List Feature).get ⟨i, hi⟩) "workerId" = some (Value.int 2) →
       (Value.int 2).truthy = true →
       ∃ doid, getAttr c3wd "OBJECTID" = some doid ∧
         getAttr (([c2wout] : List Feature).get ⟨i, hi2⟩) "workerId" = some doid) :=
  ⟨rfl, by decide, by decide, by decide, by decide, by decide, by decide,
   C2_workerId_remapped [c3ws] [c3wd] [] [] [c2wa] rfl c3ws c3wd (Value.int 2)
     (by decide) (by decide) (by decide) (by decide) (by decide) (by decide)⟩

/-- Counterexample to C4 as stated: the assignment's `workerId` 0 is
non-null and has no entry in the (empty) worker identity map, yet
`copy_relationship` succeeds and returns the assignment unchanged —
the truthiness guard skips the lookup for the falsy value 0, so no
lookup error is raised. -/
theorem C4_counterexample :
    getAttr c2a "workerId" = some (Value.int 0) ∧
    Value.int 0 ≠ Value.null ∧
    buildMapping [] ([] : List (Value × Value)) [] = some [] ∧
    alistGet ([] : List (Value × Value)) (Value.int 0) = none ∧
    copy_relationship [] [] [] [] [c2a] = some [c2a] := by
  decide

/-- C4 (amended): a TRUTHY (non-null, nonzero) `workerId` or
`dispatcherId` with no entry in the corresponding identity map makes
`copy_relationship` fail with a lookup error (it returns no result);
conversely, when every truthy foreign key has a map entry the operation
succeeds and returns exactly one output record per assignment — no
assignment is silently dropped. -/
theorem C4_unmapped_truthy_fk_fails (sW dW sD dD asg : List Feature)
    {wm dm : List (Value × Value)}
    (hwm : buildMapping dW [] sW = some wm)
    (hdm : buildMapping dD [] sD = some dm) :
    (∀ a ∈ asg, ∀ v, getAttr a "workerId" = some v → v.truthy = true →
       alistGet wm v = none → copy_relationship sW dW sD dD asg = none) ∧
    (∀ a1, remapField "workerId" wm asg = some a1 →
       ∀ a ∈ a1, ∀ v, getAttr a "dispatcherId" = some v → v.truthy = true →
       alistGet dm v = none → copy_relationship sW dW sD dD asg = none) ∧
    ((∀ a ∈ asg, ∃ vw, getAttr a "workerId" = some vw ∧
        (vw.truthy = true → (alistGet wm vw).isSome)) →
     (∀ a ∈ asg, ∃ vd, getAttr a "dispatcherId" = some vd ∧
        (vd.truthy = true → (alistGet dm vd).isSome)) →
     ∃ out, copy_relationship sW dW sD dD asg = some out ∧ out.length = asg.length) := by
  refine ⟨?_, ?_, ?_⟩
  · intro a ha v hv htr hmiss
    rw [copy_relationship, hwm, Option.some_bind,
      remapField_fails ha hv htr hmiss, Option.none_bind]
  · intro a1 ha1 a ha v hv htr hmiss
    rw [copy_relationship, hwm, Option.some_bind, ha1, Option.some_bind,
      hdm, Option.some_bind, remapField_fails ha hv htr hmiss]
  · intro hw hd
    have h1 : (remapField "workerId" wm asg).isSome := remapField_isSome hw
    obtain ⟨a1, ha1⟩ := Option.isSome_iff_exists.mp h1
    have hf1 := remapField_forall2 ha1
    have hd1 : ∀ a ∈ a1, ∃ vd, getAttr a "dispatcherId" = some vd ∧
        (vd.truthy = true → (alistGet dm vd).isSome) := by
      intro a2 ha2
      obtain ⟨a, ha, hrel⟩ := forall2_mem_right hf1 a2 ha2
      obtain ⟨vd, hvd, himp⟩ := hd a ha
      refine ⟨vd, ?_, himp⟩
      rw [remapRel_preserves_other (show "dispatcherId" ≠ "workerId" by decide) hrel]
      exact hvd
    have h2 : (remapField "dispatcherId" dm a1).isSome := remapField_isSome hd1
    obtain ⟨out, hout⟩ := Option.isSome_iff_exists.mp h2
    refine ⟨out, ?_, ?_⟩
    · rw [copy_relationship, hwm, Option.some_bind, ha1, Option.some_bind,
        hdm, Option.some_bind]
      exact hout
    · have hlen1 := (remapField_forall2 ha1).length_eq
      have hlen2 := (remapField_forall2 hout).length_eq
      omega

/-- The C4 witness assignment: truthy `workerId` 3 with no identity-map
entry. -/
def c4a : Feature := ⟨[("workerId", Value.int 3), ("dispatcherId", Value.null)]⟩

/-- Witness for the amended C4: with empty worker/dispatcher lists the
identity maps are empty, so the truthy `workerId` 3 has no entry and
`copy_relationship` fails; and the success direction applied to the
all-null assignment succeeds. -/
theorem C4_unmapped_truthy_fk_fails_witness :
    buildMapping [] ([] : List (Value × Value)) [] = some [] ∧
    ((∀ a ∈ [c4a], ∀ v, getAttr a "workerId" = some v → v.truthy = true →
        alistGet ([] : List (Value × Value)) v = none →
        copy_relationship [] [] [] [] [c4a] = none) ∧
     (∀ a1, remapField "workerId" ([] : List (Value × Value)) [c4a] = some a1 →
        ∀ a ∈ a1, ∀ v, getAttr a "dispatcherId" = some v → v.truthy = true →
        alistGet ([] : List (Value × Value)) v = none →
        copy_relationship [] [] [] [] [c4a] = none) ∧
     ((∀ a ∈ [c4a], ∃ vw, getAttr a "workerId" = some vw ∧
         (vw.truthy = true → (alistGet ([] : List (Value × Value)) vw).isSome)) →
      (∀ a ∈ [c4a], ∃ vd, getAttr a "dispatcherId" = some vd ∧
         (vd.truthy = true → (alistGet ([] : List (Value × Value)) vd).isSome)) →
      ∃ out, copy_relationship [] [] [] [] [c4a] = some out ∧
        out.length = ([c4a] : List Feature).length)) ∧
    copy_relationship [] [] [] [] [c4a] = none :=
  ⟨rfl, C4_unmapped_truthy_fk_fails [] [] [] [] [c4a] rfl rfl, rfl⟩
